import Mathlib

/-!
# Verification of the pond time-series library specification

The pond repository ships its event-processing core (Event, Index,
TimeRange, TimeRangeEvent, IndexedEvent, Pipeline with windowed
aggregation).  This development shallowly embeds the data model and the
operations exercised by the repository's event test-suite
(`src/unnamed/part_001`) and the Pipeline documentation shipped inside
`src/package.json`, and proves the documented properties about them.

The implementation modules themselves (`../event`, `../index`,
`../timerange`, `../timerangeevent`, `../indexedevent`, the Pipeline and
its aggregator) are imported by the test-suite but are not part of the
source snapshot, so every operation below is modelled from the
specification's description of those modules and cross-checked against
the concrete expectations recorded in the test-suite.

JavaScript numbers are modelled as rationals (`ℚ`): every numeric value
appearing in the spec and tests (integers, averages such as 3.0 or
19.25) is exactly representable, so rational arithmetic agrees with the
IEEE-754 arithmetic the library performs on these inputs.
-/

namespace Pond

/-- A JSON-like value: the dynamic data payload carried by pond events.
Objects are ordered association lists, mirroring the ordered mapping the
spec requires for event data. -/
inductive JValue where
  | str : String → JValue
  | num : ℚ → JValue
  | bool : Bool → JValue
  | obj : List (String × JValue) → JValue

/-- First-occurrence lookup in an ordered association list. -/
def alookup (k : String) : List (String × JValue) → Option JValue
  | [] => none
  | (k', v) :: rest => if k' = k then some v else alookup k rest

/-- Whether an association list contains a key. -/
def containsKey (k : String) : List (String × JValue) → Bool
  | [] => false
  | (k', _) :: rest => (k' == k) || containsKey k rest

/-! ## Decimal numeral codec

The Index codec serializes bucket counts and duration magnitudes as
decimal numerals.  We build the codec from first principles so the
round-trip law can be proved. -/

/-- The decimal digit character for `d < 10`. -/
def digitChar (d : Nat) : Char := Char.ofNat (48 + d)

/-- Numeric value of a digit character. -/
def digitVal (c : Char) : Nat := c.toNat - 48

/-- Value of a most-significant-first digit string (arbitrary start
accumulator). -/
def digitsValFrom (a : Nat) (l : List Char) : Nat :=
  l.foldl (fun acc c => acc * 10 + digitVal c) a

/-- Value of a most-significant-first digit string. -/
def digitsVal (l : List Char) : Nat := digitsValFrom 0 l

/-- Decimal representation of a natural number, most significant digit
first, computed with explicit fuel (`n < fuel` suffices). -/
def repNatAux : Nat → Nat → List Char
  | 0, _ => []
  | fuel + 1, n =>
    if n < 10 then [digitChar n]
    else repNatAux fuel (n / 10) ++ [digitChar (n % 10)]

/-- Canonical decimal representation of a natural number. -/
def repNat (n : Nat) : List Char := repNatAux (n + 1) n

/-! ## Index codec

Modelled from the spec: the `Index` module is imported by the test-suite
(`../index`) but absent from the source snapshot.  The spec defines an
index string `"<duration><unit>-<bucketNumber>"`: split on `-`, the left
segment a duration spec `\d+[smhd]`, the right segment an integer bucket
count, denoting the UTC time range
`[bucket * durationMillis, (bucket + 1) * durationMillis)`. -/

/-- A duration unit: seconds, minutes, hours or days. -/
inductive TUnit where
  | s : TUnit
  | m : TUnit
  | h : TUnit
  | d : TUnit
  deriving DecidableEq

/-- The character denoting each duration unit. -/
def unitChar : TUnit → Char
  | .s => 's'
  | .m => 'm'
  | .h => 'h'
  | .d => 'd'

/-- Milliseconds in one unit. -/
def unitMillis : TUnit → Nat
  | .s => 1000
  | .m => 60000
  | .h => 3600000
  | .d => 86400000

/-- Recognize a duration-unit character. -/
def charUnit (c : Char) : Option TUnit :=
  if c = 's' then some .s
  else if c = 'm' then some .m
  else if c = 'h' then some .h
  else if c = 'd' then some .d
  else none

/-- The parsed form of an index string: duration magnitude, unit, and
bucket number. -/
structure IndexSpec where
  num : Nat
  unit : TUnit
  bucket : Nat
  deriving DecidableEq

/-- Duration of the index's window in milliseconds. -/
def durMillis (i : IndexSpec) : Nat := i.num * unitMillis i.unit

/-- A half-open range of UTC instants in epoch milliseconds. -/
structure TimeRange where
  b : Nat
  e : Nat
  deriving DecidableEq

/-- The time range denoted by an index:
`[bucket * duration, (bucket + 1) * duration)`. -/
def rangeOf (i : IndexSpec) : TimeRange :=
  ⟨i.bucket * durMillis i, (i.bucket + 1) * durMillis i⟩

/-- Serialize an index to its character string. -/
def serializeIndexChars (i : IndexSpec) : List Char :=
  repNat i.num ++ unitChar i.unit :: '-' :: repNat i.bucket

/-- Serialize an index to its string form. -/
def serializeIndex (i : IndexSpec) : String := ⟨serializeIndexChars i⟩

/-- Parse a nonempty all-digit segment. -/
def parseDigits (l : List Char) : Option Nat :=
  if l ≠ [] ∧ l.all Char.isDigit then some (digitsVal l) else none

/-- Parse an index character string: leading digits form the duration
magnitude, then a unit character, then `-`, then the bucket digits. -/
def parseIndexChars (l : List Char) : Option IndexSpec :=
  match l.dropWhile Char.isDigit with
  | u :: '-' :: bs =>
    match charUnit u, parseDigits (l.takeWhile Char.isDigit), parseDigits bs with
    | some unit, some n, some b => some ⟨n, unit, b⟩
    | _, _, _ => none
  | _ => none

/-- Parse an index string. -/
def parseIndex (s : String) : Option IndexSpec := parseIndexChars s.data

/-- A string is a well-formed index string when it is the canonical
serialization of some index. -/
def WellFormedIndex (s : String) : Prop := ∃ i : IndexSpec, serializeIndex i = s

/-- The grammatical shape `\d+[smhd]-\d+` of a parseable index string. -/
def IndexShape (l : List Char) : Prop :=
  ∃ (u : TUnit) (ds bs : List Char),
    l = ds ++ unitChar u :: '-' :: bs ∧ ds ≠ [] ∧
    (∀ c ∈ ds, c.isDigit = true) ∧ bs ≠ [] ∧ (∀ c ∈ bs, c.isDigit = true)

/-! ## UTC civil-date conversion

Standard proleptic-Gregorian conversion from days since the Unix epoch
(1970-01-01) to a `(year, month, day)` triple, used to state the UTC
dates the spec quotes for concrete index strings. -/

/-- Convert a day count since 1970-01-01 to `(year, month, day)` UTC. -/
def civilFromDay (z : Nat) : Nat × Nat × Nat :=
  let days := z + 719468
  let era := days / 146097
  let doe := days % 146097
  let yoe := (doe - doe / 1460 + doe / 36524 - doe / 146096) / 365
  let y := yoe + era * 400
  let doy := doe - (365 * yoe + yoe / 4 - yoe / 100)
  let mp := (5 * doy + 2) / 153
  let d := doy - (153 * mp + 2) / 5 + 1
  let m := if mp < 10 then mp + 3 else mp - 9
  (if m ≤ 2 then y + 1 else y, m, d)

/-- Day of week for a day count since the epoch; 0 = Sunday, so
1970-01-01 is 4 = Thursday. -/
def dayOfWeek (z : Nat) : Nat := (z + 4) % 7

/-! ## Events

Modelled from the spec: the `Event`, `TimeRangeEvent` and `IndexedEvent`
modules are imported by the test-suite but absent from the source
snapshot.  A point `Event` is a timestamp (epoch milliseconds) with an
ordered data mapping; the three variants share `get`, `merge` and `sum`
capabilities. -/

/-- A point event: timestamp in epoch milliseconds plus ordered data. -/
structure Event where
  ts : Nat
  data : List (String × JValue)

/-- The tagged union of the three event variants, used by operations
such as `Event.merge` that accept any one variant. -/
inductive AnyEvent where
  | point : Nat → List (String × JValue) → AnyEvent
  | range : Nat → Nat → List (String × JValue) → AnyEvent
  | indexed : String → List (String × JValue) → AnyEvent

/-- The time key of an event: timestamp, time range, or index string. -/
inductive TimeKey where
  | point : Nat → TimeKey
  | range : Nat → Nat → TimeKey
  | indexed : String → TimeKey
  deriving DecidableEq

/-- Extract an event's time key. -/
def AnyEvent.timeKey : AnyEvent → TimeKey
  | .point t _ => .point t
  | .range b e _ => .range b e
  | .indexed i _ => .indexed i

/-- Extract an event's data mapping. -/
def AnyEvent.eventData : AnyEvent → List (String × JValue)
  | .point _ d => d
  | .range _ _ d => d
  | .indexed _ d => d

/-- Replace an event's data mapping, keeping its time key. -/
def AnyEvent.withData : AnyEvent → List (String × JValue) → AnyEvent
  | .point t _, d => .point t d
  | .range b e _, d => .range b e d
  | .indexed i _, d => .indexed i d

/-- Field access on an event of any variant. -/
def AnyEvent.getField (ev : AnyEvent) (k : String) : Option JValue :=
  alookup k ev.eventData

/-- Failures of `Event.merge`; `incompatibleMerge` carries the
mismatched time keys as context. -/
inductive MergeError where
  | incompatibleMerge (keys : List TimeKey) : MergeError
  | emptyMerge : MergeError
  deriving DecidableEq

/-- Fold the data mappings of a list of events onto an accumulator,
with later events' fields shadowing earlier ones on lookup. -/
def foldData (evs : List AnyEvent) (d0 : List (String × JValue)) :
    List (String × JValue) :=
  evs.foldl (fun acc x => x.eventData ++ acc) d0

/-- Modelled from the spec: `Event.merge` (module `../event`, absent
from the snapshot) requires an identical time key across all inputs
(else it fails with `IncompatibleMerge`) and returns one event whose
data mapping is the union of all inputs' fields, right-most wins on key
collision. -/
def Event.merge : List AnyEvent → Except MergeError AnyEvent
  | [] => .error .emptyMerge
  | e :: es =>
    if es.all (fun x => x.timeKey == e.timeKey) then
      .ok (e.withData (foldData es e.eventData))
    else .error (.incompatibleMerge ((e :: es).map AnyEvent.timeKey))

/-- Whether a value is numeric. -/
def JValue.isNum : JValue → Bool
  | .num _ => true
  | _ => false

/-- Numeric projection of a value. -/
def numOf : JValue → Option ℚ
  | .num q => some q
  | _ => none

/-- Failures of `Event.sum`; `incompatibleSum` carries the mismatched
timestamps as context. -/
inductive SumError where
  | incompatibleSum (timestamps : List Nat) : SumError
  | nonNumericSum : SumError
  | emptySum : SumError
  deriving DecidableEq

/-- All field names occurring in a list of events, with repetitions. -/
def allKeys : List Event → List String
  | [] => []
  | e :: es => e.data.map Prod.fst ++ allKeys es

/-- The union of the field names of a list of events, first occurrence
order, deduplicated. -/
def eventKeys (evs : List Event) : List String := (allKeys evs).dedup

/-- The arithmetic sum of the numeric values of field `k` over a list
of events (events lacking the field, or holding a non-numeric value
there, contribute nothing). -/
def numericFieldSum (k : String) (evs : List Event) : ℚ :=
  ((evs.filterMap (fun e => alookup k e.data)).filterMap numOf).sum

/-- Whether every field of every event is numeric. -/
def allNumeric (evs : List Event) : Bool :=
  evs.all (fun e => e.data.all (fun p => p.2.isNum))

/-- Modelled from the spec: `Event.sum` (module `../event`, absent from
the snapshot) requires an identical timestamp across all inputs (else
it fails with `IncompatibleSum`, carrying the mismatched timestamps)
and that all merged fields are numeric (else `NonNumericSum`), and
returns one event with the field-wise arithmetic sum. -/
def Event.sum : List Event → Except SumError Event
  | [] => .error .emptySum
  | e :: es =>
    if es.all (fun x => x.ts == e.ts) then
      if allNumeric (e :: es) then
        .ok ⟨e.ts, (eventKeys (e :: es)).map
          (fun k => (k, JValue.num (numericFieldSum k (e :: es))))⟩
      else .error .nonNumericSum
    else .error (.incompatibleSum ((e :: es).map Event.ts))

/-! ## Field paths

Modelled from the spec: `Event.get` (module `../event`, absent from the
snapshot) accepts either an array of path segments or a dot-delimited
string and resolves it as a nested lookup into the data mapping. -/

/-- Resolve a segment path against a nested value. -/
def getPath : List String → JValue → Option JValue
  | [], v => some v
  | k :: rest, .obj fields => (alookup k fields).bind (getPath rest)
  | _ :: _, _ => none

/-- Split a character list on a separator character. -/
def splitOnChar (sep : Char) : List Char → List (List Char)
  | [] => [[]]
  | c :: rest =>
    if c = sep then [] :: splitOnChar sep rest
    else
      match splitOnChar sep rest with
      | [] => [[c]]
      | hd :: tl => (c :: hd) :: tl

/-- Join character lists with a separator character. -/
def intercalateChar (sep : Char) : List (List Char) → List Char
  | [] => []
  | [l] => l
  | l :: l' :: rest => l ++ sep :: intercalateChar sep (l' :: rest)

/-- Split a dot-delimited field path into its segments. -/
def dotSplit (s : String) : List String :=
  (splitOnChar '.' s.data).map (fun l => ⟨l⟩)

/-- Join path segments into a dot-delimited field path. -/
def dotJoin (segs : List String) : String :=
  ⟨intercalateChar '.' (segs.map String.data)⟩

/-- `Event.get` on an array field spec: resolve the segments in order. -/
def Event.getArray (e : Event) (path : List String) : Option JValue :=
  getPath path (.obj e.data)

/-- `Event.get` on a string field spec: split on dots, then resolve. -/
def Event.get (e : Event) (s : String) : Option JValue :=
  getPath (dotSplit s) (.obj e.data)

/-- The deep test data of the repository's test-suite
(`DEEP_EVENT_DATA` with the timestamp 2015-04-22T03:30:00Z). -/
def deepEvent : Event :=
  ⟨1429673400000,
    [("NorthRoute", .obj [("in", .num 123), ("out", .num 456)]),
     ("SouthRoute", .obj [("in", .num 654), ("out", .num 223)])]⟩

/-! ## Windowing, grouping and emission triggers

Modelled from the spec: the windowing and grouping state machine of the
Pipeline aggregator (documented in `src/package.json` under `emitOn`,
`windowBy`, `groupBy` and `aggregate`, implementation absent from the
snapshot).  One accumulating collection is kept per
`(group, window)` key; the window key of an event is its timestamp
divided by the window duration; the emit policy is applied after every
arrival. -/

/-- The emission trigger policy of a Pipeline. -/
inductive Trigger where
  | eachEvent : Trigger
  | discard : Trigger

/-- An aggregation output: an indexed event holding the window's bucket
number and the aggregated data. -/
structure IEvent where
  bucket : Nat
  data : List (String × JValue)

/-- An aggregation reducer over the collected numeric values of one
field. -/
def AggFun : Type := List ℚ → ℚ

/-- The `avg` reducer of the aggregation function library. -/
def avg : AggFun := fun l => l.sum / (l.length : ℚ)

/-- The numeric values of field `k` over an accumulated collection. -/
def fieldValues (k : String) (coll : List Event) : List ℚ :=
  coll.filterMap (fun e => (alookup k e.data).bind numOf)

/-- Aggregate an accumulated collection into one indexed event: one
entry per specified field, in field-specification order. -/
def aggResult (fieldSpec : List (String × AggFun)) (w : Nat)
    (coll : List Event) : IEvent :=
  ⟨w, fieldSpec.map (fun p => (p.1, JValue.num (p.2 (fieldValues p.1 coll))))⟩

/-- The accumulation state: one in-progress collection per
`(group, window)` key, in creation order. -/
structure WindowState where
  entries : List ((String × Nat) × List Event)

/-- Look up the accumulation entry of a key. -/
def lookupEntry (key : String × Nat) :
    List ((String × Nat) × List Event) → Option (List Event)
  | [] => none
  | (k', v) :: rest => if k' = key then some v else lookupEntry key rest

/-- Replace the value at a key, or append the binding if absent. -/
def upsert (key : String × Nat) (v : List Event) :
    List ((String × Nat) × List Event) → List ((String × Nat) × List Event)
  | [] => [(key, v)]
  | (k', w) :: rest =>
    if k' = key then (key, v) :: rest else (k', w) :: upsert key v rest

/-- One arrival step of the windowing state machine: append the event
to its `(group, window)` entry, then apply the trigger policy.
`eachEvent` immediately emits the aggregate of the updated entry and
keeps it accumulating; `discard` emits nothing for the current key but
aggregates, emits once and removes every same-group entry whose window
key is smaller than the arriving event's. -/
def stepEvent (dur : Nat) (trigger : Trigger)
    (fieldSpec : List (String × AggFun)) (gf : Event → String)
    (st : WindowState) (e : Event) : WindowState × List IEvent :=
  let g := gf e
  let w := e.ts / dur
  let key := (g, w)
  let coll := ((lookupEntry key st.entries).getD []) ++ [e]
  let entries' := upsert key coll st.entries
  match trigger with
  | .eachEvent => (⟨entries'⟩, [aggResult fieldSpec w coll])
  | .discard =>
    let superseded := entries'.filter
      (fun p => p.1.1 == g && decide (p.1.2 < w))
    let kept := entries'.filter
      (fun p => !(p.1.1 == g && decide (p.1.2 < w)))
    (⟨kept⟩, superseded.map (fun p => aggResult fieldSpec p.1.2 p.2))

/-- Drive a list of events through the machine, collecting emissions in
order. -/
def runEvents (dur : Nat) (trigger : Trigger)
    (fieldSpec : List (String × AggFun)) (gf : Event → String)
    (st : WindowState) : List Event → WindowState × List IEvent
  | [] => (st, [])
  | e :: es =>
    let out := stepEvent dur trigger fieldSpec gf st e
    let rest := runEvents dur trigger fieldSpec gf out.1 es
    (rest.1, out.2 ++ rest.2)

/-! ## Pipeline builder

Modelled from the spec: the `Pipeline` class (documented inside
`src/package.json`, implementation absent from the snapshot) is an
immutable builder recording windowing, grouping and trigger state plus
an ordered processor chain; every builder method returns a new value. -/

/-- The windowing state set by `windowBy`: a fixed window of the given
duration in milliseconds. -/
structure WindowSpec where
  durationMillis : Nat

/-- One stage of the processor chain. -/
inductive Processor where
  | offsetBy : ℚ → List String → Processor
  | aggregator : List (String × AggFun) → WindowSpec → Trigger → Processor

/-- The immutable builder state of a Pipeline. -/
structure Pipeline where
  windowSpec : Option WindowSpec
  groupBy : Option (Event → String)
  emitTrigger : Trigger
  processors : List Processor

/-- A fresh Pipeline: no window, no grouping, `eachEvent` trigger, and
an empty processor chain. -/
def Pipeline.empty : Pipeline := ⟨none, none, .eachEvent, []⟩

/-- Failures raised by Pipeline builder methods. -/
inductive PipelineError where
  | aggregateWithoutWindow : PipelineError
  deriving DecidableEq

/-- `windowBy`: set a fixed window, returning a new Pipeline. -/
def Pipeline.windowBy (durationMillis : Nat) (p : Pipeline) : Pipeline :=
  { p with windowSpec := some ⟨durationMillis⟩ }

/-- Modelled from the spec: `Pipeline.aggregate(fields)` uses the
Pipeline's windowing state to build an aggregation processor; with no
window state configured it fails with `AggregateWithoutWindow`. -/
def Pipeline.aggregate (fields : List (String × AggFun)) (p : Pipeline) :
    Except PipelineError Pipeline :=
  match p.windowSpec with
  | none => .error .aggregateWithoutWindow
  | some w =>
    .ok { p with processors :=
      p.processors ++ [.aggregator fields w p.emitTrigger] }

/-! ## Event serialization

Modelled from the spec: the serialized event form of a `TimeRangeEvent`
(module `../timerangeevent`, absent from the snapshot) is
`JSON.stringify`-style: the time range as a two-element millisecond
array under `timerange`, then the data object, emitting the data
mapping's fields in the mapping's own iteration order.  The repository
test (`src/unnamed/part_001`, the TimeRangeEvent creation test) fixes
the exact expected output string for the first sample outage event. -/

/-- The opening-brace character. -/
def lbrace : Char := Char.ofNat 123

/-- The closing-brace character. -/
def rbrace : Char := Char.ofNat 125

/-- JSON text of a rational: integers in decimal (the only numbers the
repository's serialized sample data can contain); a non-integral value
falls back to a fraction rendering, unreachable for the data at hand. -/
def serializeRat (q : ℚ) : List Char :=
  if q.den = 1 then
    (if q.num < 0 then '-' :: repNat q.num.natAbs else repNat q.num.natAbs)
  else repNat q.num.natAbs ++ '/' :: repNat q.den

mutual

/-- JSON text of a value: strings quoted (the sample data needs no
escape sequences), booleans as `true`/`false`, objects brace-wrapped. -/
def serializeJValue : JValue → List Char
  | .str s => '\"' :: s.data ++ ['\"']
  | .num q => serializeRat q
  | .bool b => if b then "true".data else "false".data
  | .obj fs => lbrace :: serializeFields fs ++ [rbrace]

/-- JSON text of an object's fields, comma-separated, in list order. -/
def serializeFields : List (String × JValue) → List Char
  | [] => []
  | [(k, v)] => '\"' :: k.data ++ '\"' :: ':' :: serializeJValue v
  | (k, v) :: rest =>
    '\"' :: k.data ++ '\"' :: ':' :: serializeJValue v ++ ',' :: serializeFields rest

end

/-- A time-range event: begin and end instants in epoch milliseconds
plus a data mapping. -/
structure TimeRangeEvent where
  b : Nat
  e : Nat
  data : List (String × JValue)

/-- Modelled from the spec: serialization of a `TimeRangeEvent` to the
form with a `timerange` millisecond pair followed by the `data`
object. -/
def TimeRangeEvent.serialize (t : TimeRangeEvent) : String :=
  ⟨lbrace :: ("\"timerange\":[".data ++ repNat t.b ++ ',' :: repNat t.e
    ++ "],\"data\":".data ++ serializeJValue (.obj t.data) ++ [rbrace])⟩

/-- The first sample outage event of the repository's test-suite, with
its fields in the insertion order of the source object literal. -/
def outageInsertionData : List (String × JValue) :=
  [("start_time", .str "2015-04-22T03:30:00Z"),
   ("end_time", .str "2015-04-22T13:00:00Z"),
   ("description", .str "At 13:33 pacific circuit 06519 went down."),
   ("title", .str "STAR-CR5 < 100 ge 06519 > ANL  - Outage"),
   ("completed", .bool true),
   ("external_ticket", .str ""),
   ("esnet_ticket", .str "ESNET-20150421-013"),
   ("organization", .str "Internet2 / Level 3"),
   ("type", .str "U")]

/-- The same nine fields in the iteration order the repository test
exhibits for the event's data mapping. -/
def outageMapOrderData : List (String × JValue) :=
  [("external_ticket", .str ""),
   ("start_time", .str "2015-04-22T03:30:00Z"),
   ("completed", .bool true),
   ("end_time", .str "2015-04-22T13:00:00Z"),
   ("organization", .str "Internet2 / Level 3"),
   ("title", .str "STAR-CR5 < 100 ge 06519 > ANL  - Outage"),
   ("type", .str "U"),
   ("esnet_ticket", .str "ESNET-20150421-013"),
   ("description", .str "At 13:33 pacific circuit 06519 went down.")]

/-- The exact serialized string the repository test asserts for the
first sample outage event. -/
def expectedOutageString : String :=
  "\x7b\"timerange\":[1429673400000,1429707600000],\"data\":\x7b\"external_ticket\":\"\",\"start_time\":\"2015-04-22T03:30:00Z\",\"completed\":true,\"end_time\":\"2015-04-22T13:00:00Z\",\"organization\":\"Internet2 / Level 3\",\"title\":\"STAR-CR5 < 100 ge 06519 > ANL  - Outage\",\"type\":\"U\",\"esnet_ticket\":\"ESNET-20150421-013\",\"description\":\"At 13:33 pacific circuit 06519 went down.\"\x7d\x7d"

/-! ## Theorems -/

theorem alookup_append (k : String) (a b : List (String × JValue)) :
    alookup k (a ++ b) = ((alookup k a).orElse (fun _ => alookup k b)) := by
  induction a with
  | nil => simp [alookup]
  | cons hd tl ih =>
    obtain ⟨k', v⟩ := hd
    by_cases h : k' = k <;> simp [alookup, h, ih]

theorem alookup_isSome_iff_containsKey (k : String) (l : List (String × JValue)) :
    (alookup k l).isSome = containsKey k l := by
  induction l with
  | nil => simp [alookup, containsKey]
  | cons hd tl ih =>
    obtain ⟨k', v⟩ := hd
    by_cases h : k' = k
    · subst h
      simp [alookup, containsKey]
    · simp [alookup, containsKey, h, ih]

theorem digitsValFrom_append (a : Nat) (l1 l2 : List Char) :
    digitsValFrom a (l1 ++ l2) = digitsValFrom (digitsValFrom a l1) l2 := by
  simp [digitsValFrom, List.foldl_append]

theorem digitVal_digitChar (d : Nat) (h : d < 10) : digitVal (digitChar d) = d := by
  interval_cases d <;> decide

theorem isDigit_digitChar (d : Nat) (h : d < 10) : (digitChar d).isDigit = true := by
  interval_cases d <;> decide

theorem repNatAux_fuel_mono (fuel n : Nat) (h : n < fuel) :
    ∀ fuel', fuel ≤ fuel' → repNatAux fuel' n = repNatAux fuel n := by
  induction fuel generalizing n with
  | zero => omega
  | succ f ih =>
    intro fuel' hle
    obtain ⟨f', rfl⟩ : ∃ f', fuel' = f' + 1 := ⟨fuel' - 1, by omega⟩
    by_cases hn : n < 10
    · simp [repNatAux, hn]
    · have hdiv : n / 10 < f := by omega
      simp only [repNatAux, hn, if_false]
      rw [ih (n / 10) hdiv f' (by omega)]

theorem repNat_eq_aux (fuel n : Nat) (h : n < fuel) : repNatAux fuel n = repNat n := by
  rw [repNat, repNatAux_fuel_mono (n + 1) n (by omega) fuel (by omega)]

theorem repNatAux_ne_nil (fuel n : Nat) (h : n < fuel) : repNatAux fuel n ≠ [] := by
  cases fuel with
  | zero => omega
  | succ f =>
    by_cases hn : n < 10 <;> simp [repNatAux, hn]

theorem repNat_ne_nil (n : Nat) : repNat n ≠ [] := repNatAux_ne_nil (n + 1) n (by omega)

theorem repNatAux_all_digits (fuel n : Nat) (h : n < fuel) :
    ∀ c ∈ repNatAux fuel n, c.isDigit = true := by
  induction fuel generalizing n with
  | zero => omega
  | succ f ih =>
    by_cases hn : n < 10
    · simp [repNatAux, hn, isDigit_digitChar n hn]
    · have hdiv : n / 10 < f := by omega
      simp only [repNatAux, hn, if_false]
      intro c hc
      rcases List.mem_append.mp hc with hc1 | hc2
      · exact ih (n / 10) hdiv c hc1
      · rcases List.mem_singleton.mp hc2 with rfl
        exact isDigit_digitChar _ (Nat.mod_lt _ (by omega))

theorem repNat_all_digits (n : Nat) : ∀ c ∈ repNat n, c.isDigit = true :=
  repNatAux_all_digits (n + 1) n (by omega)

theorem digitsValFrom_repNatAux (fuel n a : Nat) (h : n < fuel) :
    digitsValFrom a (repNatAux fuel n) = a * 10 ^ (repNatAux fuel n).length + n := by
  induction fuel generalizing n a with
  | zero => omega
  | succ f ih =>
    by_cases hn : n < 10
    · simp [repNatAux, hn, digitsValFrom, digitVal_digitChar n hn]
    · have hdiv : n / 10 < f := by omega
      simp only [repNatAux, hn, if_false]
      rw [digitsValFrom_append, ih (n / 10) a hdiv]
      have hmod : n % 10 < 10 := Nat.mod_lt _ (by omega)
      simp only [digitsValFrom, List.foldl_cons, List.foldl_nil,
        digitVal_digitChar (n % 10) hmod, List.length_append,
        List.length_singleton]
      rw [pow_succ]
      have := Nat.div_add_mod n 10
      ring_nf
      omega

/-- Round trip: the decimal numeral of `n` evaluates back to `n`. -/
theorem digitsVal_repNat (n : Nat) : digitsVal (repNat n) = n := by
  have := digitsValFrom_repNatAux (n + 1) n 0 (by omega)
  simpa [digitsVal, repNat] using this

theorem takeWhile_append_cons (p : Char → Bool) (l1 : List Char) (c : Char)
    (l2 : List Char) (h1 : ∀ x ∈ l1, p x = true) (hc : p c = false) :
    (l1 ++ c :: l2).takeWhile p = l1 := by
  induction l1 with
  | nil => simp [List.takeWhile, hc]
  | cons hd tl ih =>
    have hhd : p hd = true := h1 hd (by simp)
    simp only [List.cons_append, List.takeWhile_cons, hhd, if_true]
    rw [ih (fun x hx => h1 x (by simp [hx]))]

theorem dropWhile_append_cons (p : Char → Bool) (l1 : List Char) (c : Char)
    (l2 : List Char) (h1 : ∀ x ∈ l1, p x = true) (hc : p c = false) :
    (l1 ++ c :: l2).dropWhile p = c :: l2 := by
  induction l1 with
  | nil => simp [List.dropWhile, hc]
  | cons hd tl ih =>
    have hhd : p hd = true := h1 hd (by simp)
    simp only [List.cons_append, List.dropWhile_cons, hhd, if_true]
    exact ih (fun x hx => h1 x (by simp [hx]))

theorem unitChar_not_digit (u : TUnit) : (unitChar u).isDigit = false := by
  cases u <;> decide

theorem charUnit_unitChar (u : TUnit) : charUnit (unitChar u) = some u := by
  cases u <;> decide

theorem parseDigits_repNat (n : Nat) : parseDigits (repNat n) = some n := by
  rw [parseDigits, if_pos ⟨repNat_ne_nil n, List.all_eq_true.mpr (repNat_all_digits n)⟩,
    digitsVal_repNat]

/-- Parsing inverts serialization on every index. -/
theorem parseIndex_serializeIndex (i : IndexSpec) :
    parseIndex (serializeIndex i) = some i := by
  obtain ⟨n, u, b⟩ := i
  have hd : (serializeIndex ⟨n, u, b⟩).data
      = repNat n ++ unitChar u :: '-' :: repNat b := rfl
  rw [parseIndex, hd]
  unfold parseIndexChars
  rw [dropWhile_append_cons Char.isDigit (repNat n) (unitChar u) _
        (repNat_all_digits n) (unitChar_not_digit u),
      takeWhile_append_cons Char.isDigit (repNat n) (unitChar u) _
        (repNat_all_digits n) (unitChar_not_digit u)]
  cases u <;> simp [unitChar, charUnit, parseDigits_repNat]

theorem charUnit_eq_some (c : Char) (u : TUnit) (h : charUnit c = some u) :
    c = unitChar u := by
  unfold charUnit at h
  split_ifs at h <;> simp_all [unitChar] <;> subst h <;> rfl

theorem parseDigits_some (l : List Char) (n : Nat) (h : parseDigits l = some n) :
    l ≠ [] ∧ (∀ c ∈ l, c.isDigit = true) ∧ digitsVal l = n := by
  unfold parseDigits at h
  split_ifs at h with hc
  exact ⟨hc.1, List.all_eq_true.mp hc.2, Option.some.inj h⟩

/-- Parser soundness: a successful parse certifies the grammatical shape. -/
theorem parseIndexChars_some_shape (l : List Char) (i : IndexSpec)
    (h : parseIndexChars l = some i) : IndexShape l := by
  unfold parseIndexChars at h
  split at h
  case _ u bs heq =>
    split at h
    case _ unit n b hcu hn hb =>
      obtain ⟨hne1, hdig1, hval1⟩ := parseDigits_some _ _ hn
      obtain ⟨hne2, hdig2, hval2⟩ := parseDigits_some _ _ hb
      refine ⟨unit, l.takeWhile Char.isDigit, bs, ?_, hne1, hdig1, hne2, hdig2⟩
      rw [← charUnit_eq_some u unit hcu, ← heq, List.takeWhile_append_dropWhile]
    case _ => cases h
  case _ => cases h

/-- Invalid strings are rejected: a string without the index shape
parses to `none`. -/
theorem parseIndex_invalid (s : String) (h : ¬ IndexShape s.data) :
    parseIndex s = none := by
  cases hp : parseIndex s with
  | none => rfl
  | some i => exact absurd (parseIndexChars_some_shape s.data i hp) h

theorem alookup_eq_none_of_not_contains (k : String) (d : List (String × JValue))
    (h : containsKey k d = false) : alookup k d = none := by
  cases ho : alookup k d with
  | none => rfl
  | some v =>
    have hs := alookup_isSome_iff_containsKey k d
    rw [ho, h] at hs
    simp at hs

theorem alookup_isSome_of_contains (k : String) (d : List (String × JValue))
    (h : containsKey k d = true) : ∃ v, alookup k d = some v := by
  cases ho : alookup k d with
  | none =>
    have hs := alookup_isSome_iff_containsKey k d
    rw [ho, h] at hs
    simp at hs
  | some v => exact ⟨v, rfl⟩

theorem timeKey_withData (ev : AnyEvent) (d : List (String × JValue)) :
    (ev.withData d).timeKey = ev.timeKey := by
  cases ev <;> rfl

theorem eventData_withData (ev : AnyEvent) (d : List (String × JValue)) :
    (ev.withData d).eventData = d := by
  cases ev <;> rfl

theorem fold_lookup_or (k : String) (dv : List (String × JValue))
    (hc : containsKey k dv = true) :
    ∀ (ds : List AnyEvent) (d0 : List (String × JValue)),
      (∀ x ∈ ds, x.eventData = dv ∨ containsKey k x.eventData = false) →
      alookup k (foldData ds d0) = alookup k d0 ∨
        alookup k (foldData ds d0) = alookup k dv := by
  intro ds
  induction ds with
  | nil =>
    intro d0 _
    left
    rfl
  | cons x ds ih =>
    intro d0 hall
    have hstep : foldData (x :: ds) d0 = foldData ds (x.eventData ++ d0) := rfl
    rcases hall x (by simp) with hdv | hnc
    · rcases ih (x.eventData ++ d0) (fun y hy => hall y (by simp [hy])) with h1 | h2
      · right
        rw [hstep, h1, hdv, alookup_append]
        obtain ⟨v, hv⟩ := alookup_isSome_of_contains k dv hc
        simp [hv]
      · right
        rw [hstep]
        exact h2
    · rcases ih (x.eventData ++ d0) (fun y hy => hall y (by simp [hy])) with h1 | h2
      · left
        rw [hstep, h1, alookup_append, alookup_eq_none_of_not_contains k _ hnc]
        rfl
      · right
        rw [hstep]
        exact h2

theorem fold_lookup_of_mem (k : String) (dv : List (String × JValue))
    (hc : containsKey k dv = true) :
    ∀ (ds : List AnyEvent) (d0 : List (String × JValue)),
      (∀ x ∈ ds, x.eventData = dv ∨ containsKey k x.eventData = false) →
      (∃ x ∈ ds, x.eventData = dv) →
      alookup k (foldData ds d0) = alookup k dv := by
  intro ds
  induction ds with
  | nil =>
    rintro d0 _ ⟨x, hx, _⟩
    cases hx
  | cons x ds ih =>
    rintro d0 hall hex
    have hstep : foldData (x :: ds) d0 = foldData ds (x.eventData ++ d0) := rfl
    rcases hall x (by simp) with hdv | hnc
    · rcases fold_lookup_or k dv hc ds (x.eventData ++ d0)
          (fun y hy => hall y (by simp [hy])) with h1 | h2
      · rw [hstep, h1, hdv, alookup_append]
        obtain ⟨v, hv⟩ := alookup_isSome_of_contains k dv hc
        simp [hv]
      · rw [hstep]
        exact h2
    · obtain ⟨y, hy, hydv⟩ := hex
      rcases List.mem_cons.mp hy with rfl | hytail
      · rw [hydv] at hnc
        rw [hnc] at hc
        cases hc
      · rw [hstep]
        exact ih (x.eventData ++ d0) (fun z hz => hall z (by simp [hz])) ⟨y, hytail, hydv⟩

/-- Claim C3: for every list of events (of any of the three variants)
sharing the identical time key, `Event.merge` returns one event whose
data mapping is the union of all inputs' fields — a field present in
exactly one input is read back from the merge with that input's value —
and for events with mismatched time keys, merge always fails with
`IncompatibleMerge`. -/
theorem merge_spec (e : AnyEvent) (es : List AnyEvent) :
    ((∀ x ∈ es, x.timeKey = e.timeKey) →
      ∃ m, Event.merge (e :: es) = .ok m ∧ m.timeKey = e.timeKey ∧
        ∀ (k : String) (ev : AnyEvent), ev ∈ e :: es →
          containsKey k ev.eventData = true →
          (∀ ev' ∈ e :: es, ev' ≠ ev → containsKey k ev'.eventData = false) →
          m.getField k = ev.getField k) ∧
    ((∃ x ∈ es, x.timeKey ≠ e.timeKey) →
      Event.merge (e :: es) =
        .error (.incompatibleMerge ((e :: es).map AnyEvent.timeKey))) := by
  constructor
  · intro hkeys
    have hcond : es.all (fun x => x.timeKey == e.timeKey) = true := by
      rw [List.all_eq_true]
      intro x hx
      exact beq_iff_eq.mpr (hkeys x hx)
    refine ⟨e.withData (foldData es e.eventData), ?_, timeKey_withData e _, ?_⟩
    · simp [Event.merge, hcond]
    · intro k ev hev hcont huniq
      have hall : ∀ x ∈ es, x.eventData = ev.eventData ∨
          containsKey k x.eventData = false := by
        intro x hx
        by_cases hxe : x = ev
        · exact Or.inl (by rw [hxe])
        · exact Or.inr (huniq x (by simp [hx]) hxe)
      have hm : (e.withData (foldData es e.eventData)).getField k
          = alookup k (foldData es e.eventData) := by
        rw [AnyEvent.getField, eventData_withData]
      rcases List.mem_cons.mp hev with rfl | hevtail
      · rcases fold_lookup_or k ev.eventData hcont es ev.eventData hall with h1 | h2
        · rw [hm, h1]
          rfl
        · rw [hm, h2]
          rfl
      · rw [hm, fold_lookup_of_mem k ev.eventData hcont es e.eventData hall
          ⟨ev, hevtail, rfl⟩]
        rfl
  · rintro ⟨x, hx, hne⟩
    have hcond : es.all (fun y => y.timeKey == e.timeKey) = false := by
      by_contra hc
      have := List.all_eq_true.mp (Bool.not_eq_false _ ▸ hc) x hx
      exact hne (beq_iff_eq.mp this)
    simp [Event.merge, hcond]

/-- Witness for `merge_spec`: two point events from the repository's
test-suite at the identical timestamp merge successfully. -/
theorem merge_spec_witness :
    ∃ m, Event.merge [.point 1429673400000 [("a", .num 5), ("b", .num 6)],
        .point 1429673400000 [("c", .num 2)]] = .ok m ∧
      m.timeKey = (AnyEvent.point 1429673400000
        [("a", .num 5), ("b", .num 6)]).timeKey ∧
      ∀ (k : String) (ev : AnyEvent),
        ev ∈ [AnyEvent.point 1429673400000 [("a", .num 5), ("b", .num 6)],
          AnyEvent.point 1429673400000 [("c", .num 2)]] →
        containsKey k ev.eventData = true →
        (∀ ev' ∈ [AnyEvent.point 1429673400000 [("a", .num 5), ("b", .num 6)],
            AnyEvent.point 1429673400000 [("c", .num 2)]],
          ev' ≠ ev → containsKey k ev'.eventData = false) →
        (Event.merge [AnyEvent.point 1429673400000 [("a", .num 5), ("b", .num 6)],
            AnyEvent.point 1429673400000 [("c", .num 2)]] = .ok m →
          m.getField k = ev.getField k) := by
  obtain ⟨m, h1, h2, h3⟩ := (merge_spec
    (.point 1429673400000 [("a", .num 5), ("b", .num 6)])
    [.point 1429673400000 [("c", .num 2)]]).1
    (by
      rintro x hx
      rcases List.mem_singleton.mp hx with rfl
      rfl)
  exact ⟨m, h1, h2, fun k ev hev hc hu _ => h3 k ev hev hc hu⟩

theorem alookup_map_keys (ks : List String) (f : String → JValue) (k : String) :
    alookup k (ks.map (fun k' => (k', f k')))
      = if k ∈ ks then some (f k) else none := by
  induction ks with
  | nil => simp [alookup]
  | cons hd tl ih =>
    by_cases h : hd = k
    · subst h
      simp [alookup]
    · have hiff : (k = hd ∨ k ∈ tl) ↔ k ∈ tl := by
        constructor
        · rintro (rfl | hk)
          · exact absurd rfl h
          · exact hk
        · exact Or.inr
      simp only [List.map_cons, alookup, if_neg h, ih, List.mem_cons]
      by_cases hk : k ∈ tl
      · rw [if_pos hk, if_pos (hiff.mpr hk)]
      · rw [if_neg hk, if_neg (fun hc => hk (hiff.mp hc))]

theorem contains_iff_mem_keys (k : String) (d : List (String × JValue)) :
    containsKey k d = true ↔ k ∈ d.map Prod.fst := by
  induction d with
  | nil => simp [containsKey]
  | cons hd tl ih =>
    obtain ⟨k', v⟩ := hd
    simp only [containsKey, List.map_cons, List.mem_cons, Bool.or_eq_true,
      beq_iff_eq, ih]
    constructor
    · rintro (h | h)
      · exact Or.inl h.symm
      · exact Or.inr h
    · rintro (h | h)
      · exact Or.inl h.symm
      · exact Or.inr h

theorem mem_allKeys (k : String) (evs : List Event) :
    k ∈ allKeys evs ↔ ∃ e ∈ evs, containsKey k e.data = true := by
  induction evs with
  | nil => simp [allKeys]
  | cons e es ih =>
    simp [allKeys, List.mem_append, ih, contains_iff_mem_keys]

theorem mem_eventKeys_iff (k : String) (evs : List Event) :
    k ∈ eventKeys evs ↔ ∃ e ∈ evs, containsKey k e.data = true := by
  rw [eventKeys, List.mem_dedup, mem_allKeys]

theorem numericFieldSum_perm (k : String) (l1 l2 : List Event) (hp : l1.Perm l2) :
    numericFieldSum k l1 = numericFieldSum k l2 :=
  List.Perm.sum_eq (((hp.filterMap (fun e => alookup k e.data)).filterMap numOf))

theorem sumEvents_ok (e : Event) (es : List Event)
    (hts : ∀ x ∈ es, x.ts = e.ts) (hnum : allNumeric (e :: es) = true) :
    Event.sum (e :: es) = .ok ⟨e.ts, (eventKeys (e :: es)).map
      (fun k => (k, JValue.num (numericFieldSum k (e :: es))))⟩ := by
  have hcond : es.all (fun x => x.ts == e.ts) = true := by
    rw [List.all_eq_true]
    intro x hx
    exact beq_iff_eq.mpr (hts x hx)
  simp [Event.sum, hcond, hnum]

/-- Claim C6: `Event.sum` is permutation-invariant — for events sharing
one timestamp and carrying only numeric fields, summing any permutation
of `[e1, e2, e3]` succeeds and yields, at every field, the same value:
the field-wise arithmetic sum. -/
theorem sum_perm_invariant (e1 e2 e3 : Event) (l2 : List Event)
    (hp : List.Perm [e1, e2, e3] l2)
    (hts : e2.ts = e1.ts ∧ e3.ts = e1.ts)
    (hnum : allNumeric [e1, e2, e3] = true) :
    ∃ r1 r2, Event.sum [e1, e2, e3] = .ok r1 ∧ Event.sum l2 = .ok r2 ∧
      (∀ k, alookup k r1.data = alookup k r2.data) ∧
      (∀ k, k ∈ eventKeys [e1, e2, e3] →
        alookup k r1.data = some (.num (numericFieldSum k [e1, e2, e3]))) := by
  have hts1 : ∀ x ∈ [e1, e2, e3], x.ts = e1.ts := by
    intro x hx
    rcases List.mem_cons.mp hx with rfl | hx
    · rfl
    rcases List.mem_cons.mp hx with rfl | hx
    · exact hts.1
    rcases List.mem_cons.mp hx with rfl | hx
    · exact hts.2
    cases hx
  cases hl2 : l2 with
  | nil =>
    subst hl2
    have := hp.length_eq
    simp at this
  | cons b bs =>
    subst hl2
    have hmem : ∀ x ∈ b :: bs, x.ts = e1.ts := fun x hx =>
      hts1 x (hp.mem_iff.mpr hx)
    have hts2 : ∀ x ∈ bs, x.ts = b.ts := by
      intro x hx
      rw [hmem x (by simp [hx]), hmem b (by simp)]
    have hnum2 : allNumeric (b :: bs) = true := by
      rw [allNumeric, List.all_eq_true]
      intro x hx
      exact List.all_eq_true.mp hnum x (hp.mem_iff.mpr hx)
    have hbts : b.ts = e1.ts := hmem b (by simp)
    refine ⟨_, _, sumEvents_ok e1 [e2, e3]
        (fun x hx => hts1 x (List.mem_cons.mpr (Or.inr hx))) hnum,
      sumEvents_ok b bs hts2 hnum2, ?_, ?_⟩
    · intro k
      rw [alookup_map_keys, alookup_map_keys]
      have hkiff : k ∈ eventKeys [e1, e2, e3] ↔ k ∈ eventKeys (b :: bs) := by
        rw [mem_eventKeys_iff, mem_eventKeys_iff]
        constructor
        · rintro ⟨e, he, hc⟩
          exact ⟨e, hp.mem_iff.mp he, hc⟩
        · rintro ⟨e, he, hc⟩
          exact ⟨e, hp.mem_iff.mpr he, hc⟩
      by_cases hk : k ∈ eventKeys [e1, e2, e3]
      · rw [if_pos hk, if_pos (hkiff.mp hk), numericFieldSum_perm k _ _ hp]
      · rw [if_neg hk, if_neg (fun hc => hk (hkiff.mpr hc))]
    · intro k hk
      rw [alookup_map_keys, if_pos hk]

/-- Witness for `sum_perm_invariant`: the three numeric events of the
repository's sum test, in original and rotated order. -/
theorem sum_perm_invariant_witness :
    ∃ r1 r2,
      Event.sum [⟨1429673400000, [("a", .num 5), ("b", .num 6), ("c", .num 7)]⟩,
        ⟨1429673400000, [("a", .num 2), ("b", .num 3), ("c", .num 4)]⟩,
        ⟨1429673400000, [("a", .num 1), ("b", .num 2), ("c", .num 3)]⟩] = .ok r1 ∧
      Event.sum [⟨1429673400000, [("a", .num 1), ("b", .num 2), ("c", .num 3)]⟩,
        ⟨1429673400000, [("a", .num 5), ("b", .num 6), ("c", .num 7)]⟩,
        ⟨1429673400000, [("a", .num 2), ("b", .num 3), ("c", .num 4)]⟩] = .ok r2 ∧
      (∀ k, alookup k r1.data = alookup k r2.data) ∧
      (∀ k, k ∈ eventKeys
          [⟨1429673400000, [("a", .num 5), ("b", .num 6), ("c", .num 7)]⟩,
           ⟨1429673400000, [("a", .num 2), ("b", .num 3), ("c", .num 4)]⟩,
           ⟨1429673400000, [("a", .num 1), ("b", .num 2), ("c", .num 3)]⟩] →
        alookup k r1.data = some (.num (numericFieldSum k
          [⟨1429673400000, [("a", .num 5), ("b", .num 6), ("c", .num 7)]⟩,
           ⟨1429673400000, [("a", .num 2), ("b", .num 3), ("c", .num 4)]⟩,
           ⟨1429673400000, [("a", .num 1), ("b", .num 2), ("c", .num 3)]⟩]))) :=
  sum_perm_invariant
    ⟨1429673400000, [("a", .num 5), ("b", .num 6), ("c", .num 7)]⟩
    ⟨1429673400000, [("a", .num 2), ("b", .num 3), ("c", .num 4)]⟩
    ⟨1429673400000, [("a", .num 1), ("b", .num 2), ("c", .num 3)]⟩
    _
    (((List.Perm.swap _ _ _).trans (List.Perm.cons _ (List.Perm.swap _ _ []))).symm)
    ⟨rfl, rfl⟩ (by decide)

/-- Claim C7: `Event.sum` over point events in which two inputs carry
different timestamps always fails with `IncompatibleSum`, carrying the
mismatched timestamps as context. -/
theorem sum_mismatch (e : Event) (es : List Event)
    (h : ∃ a ∈ e :: es, ∃ b ∈ e :: es, a.ts ≠ b.ts) :
    Event.sum (e :: es) = .error (.incompatibleSum ((e :: es).map Event.ts)) := by
  have hcond : es.all (fun x => x.ts == e.ts) = false := by
    by_contra hc
    have hall := List.all_eq_true.mp (Bool.not_eq_false _ ▸ hc)
    obtain ⟨a, ha, b, hb, hne⟩ := h
    have htsall : ∀ x ∈ e :: es, x.ts = e.ts := by
      intro x hx
      rcases List.mem_cons.mp hx with rfl | hx
      · rfl
      · exact beq_iff_eq.mp (hall x hx)
    exact hne ((htsall a ha).trans (htsall b hb).symm)
  simp [Event.sum, hcond]

/-- Witness for `sum_mismatch`: the repository's test feeds three events
half an hour apart and expects the sum to be rejected. -/
theorem sum_mismatch_witness :
    Event.sum [⟨1429673400000, [("a", .num 5), ("b", .num 6), ("c", .num 7)]⟩,
        ⟨1429675200000, [("a", .num 2), ("b", .num 3), ("c", .num 4)]⟩,
        ⟨1429677000000, [("a", .num 1), ("b", .num 2), ("c", .num 3)]⟩]
      = .error (.incompatibleSum [1429673400000, 1429675200000, 1429677000000]) :=
  sum_mismatch ⟨1429673400000, [("a", .num 5), ("b", .num 6), ("c", .num 7)]⟩
    [⟨1429675200000, [("a", .num 2), ("b", .num 3), ("c", .num 4)]⟩,
     ⟨1429677000000, [("a", .num 1), ("b", .num 2), ("c", .num 3)]⟩]
    ⟨⟨1429673400000, [("a", .num 5), ("b", .num 6), ("c", .num 7)]⟩, by simp,
     ⟨1429675200000, [("a", .num 2), ("b", .num 3), ("c", .num 4)]⟩, by simp,
     by decide⟩

theorem splitOnChar_ne_nil (sep : Char) (l : List Char) : splitOnChar sep l ≠ [] := by
  cases l with
  | nil => simp [splitOnChar]
  | cons c rest =>
    by_cases h : c = sep
    · simp [splitOnChar, h]
    · simp only [splitOnChar, if_neg h]
      cases splitOnChar sep rest <;> simp

theorem splitOnChar_no_sep (sep : Char) (l : List Char) (h : sep ∉ l) :
    splitOnChar sep l = [l] := by
  induction l with
  | nil => rfl
  | cons c rest ih =>
    have hc : ¬ c = sep := fun hc => h (by simp [hc])
    have hrest : sep ∉ rest := fun hr => h (by simp [hr])
    simp only [splitOnChar, if_neg hc, ih hrest]

theorem splitOnChar_append_sep (sep : Char) (l tail : List Char) (h : sep ∉ l) :
    splitOnChar sep (l ++ sep :: tail) = l :: splitOnChar sep tail := by
  induction l with
  | nil => simp [splitOnChar]
  | cons c rest ih =>
    have hc : ¬ c = sep := fun hc => h (by simp [hc])
    have hrest : sep ∉ rest := fun hr => h (by simp [hr])
    simp only [List.cons_append, splitOnChar, if_neg hc]
    have harr : rest.append (sep :: tail) = rest ++ sep :: tail := rfl
    rw [harr, ih hrest]

theorem splitOnChar_intercalateChar (sep : Char) (ls : List (List Char))
    (hne : ls ≠ []) (h : ∀ l ∈ ls, sep ∉ l) :
    splitOnChar sep (intercalateChar sep ls) = ls := by
  induction ls with
  | nil => exact absurd rfl hne
  | cons l rest ih =>
    cases rest with
    | nil =>
      simp only [intercalateChar]
      exact splitOnChar_no_sep sep l (h l (by simp))
    | cons l' rest' =>
      simp only [intercalateChar]
      rw [splitOnChar_append_sep sep l _ (h l (by simp))]
      rw [ih (by simp) (fun x hx => h x (by simp [hx]))]

theorem dotSplit_dotJoin (segs : List String) (hne : segs ≠ [])
    (h : ∀ s ∈ segs, '.' ∉ s.data) :
    dotSplit (dotJoin segs) = segs := by
  have hd : (dotJoin segs).data = intercalateChar '.' (segs.map String.data) := rfl
  rw [dotSplit, hd, splitOnChar_intercalateChar '.' (segs.map String.data)
    (by simpa using hne)
    (by
      intro l hl
      obtain ⟨s, hs, rfl⟩ := List.mem_map.mp hl
      exact h s hs)]
  rw [List.map_map]
  have : (fun l => (⟨l⟩ : String)) ∘ String.data = id := by
    funext s
    rfl
  rw [this, List.map_id]

/-- Claim C10: `Event.get` accepts an array of path segments as well as
a dot-delimited string — on every event the array form agrees with the
dot-path form — and on the repository's deep test data
`["NorthRoute", "in"]` and `"NorthRoute.in"` both give 123, while a
top-level key returns the whole nested sub-mapping. -/
theorem get_path_spec :
    (∀ (e : Event) (segs : List String), segs ≠ [] →
        (∀ s ∈ segs, '.' ∉ s.data) →
        e.getArray segs = e.get (dotJoin segs)) ∧
    deepEvent.getArray ["NorthRoute", "in"] = some (.num 123) ∧
    deepEvent.get "NorthRoute.in" = some (.num 123) ∧
    deepEvent.getArray ["NorthRoute"]
      = some (.obj [("in", .num 123), ("out", .num 456)]) := by
  refine ⟨?_, rfl, rfl, rfl⟩
  intro e segs hne h
  rw [Event.getArray, Event.get, dotSplit_dotJoin segs hne h]

/-- Witness for `get_path_spec`: the deep-data path of the repository's
test, as an array and as the joined dot string. -/
theorem get_path_spec_witness :
    deepEvent.getArray ["NorthRoute", "in"]
      = deepEvent.get (dotJoin ["NorthRoute", "in"]) :=
  get_path_spec.1 deepEvent ["NorthRoute", "in"] (by simp) (by decide)

/-- Claim C1: with a fixed 1h window, `emitOn("eachEvent")` and
`aggregate({in: avg})`, three events inside the same hour with
`in` = 2, 4, 6 cause exactly three emissions, one per input event, with
cumulative averages 2, 3, 4, and the `(group, window)` accumulation
entry survives all three emissions, holding all three events. -/
theorem eachEvent_trigger (t1 t2 t3 : Nat)
    (h2 : t2 / 3600000 = t1 / 3600000) (h3 : t3 / 3600000 = t1 / 3600000) :
    runEvents 3600000 .eachEvent [("in", avg)] (fun _ => "") ⟨[]⟩
        [⟨t1, [("in", .num 2)]⟩, ⟨t2, [("in", .num 4)]⟩, ⟨t3, [("in", .num 6)]⟩]
      = (⟨[(("", t1 / 3600000),
            [⟨t1, [("in", .num 2)]⟩, ⟨t2, [("in", .num 4)]⟩,
             ⟨t3, [("in", .num 6)]⟩])]⟩,
         [⟨t1 / 3600000, [("in", .num 2)]⟩,
          ⟨t1 / 3600000, [("in", .num 3)]⟩,
          ⟨t1 / 3600000, [("in", .num 4)]⟩]) := by
  simp [runEvents, stepEvent, h2, h3, lookupEntry, upsert, aggResult,
    fieldValues, alookup, numOf, avg]
  norm_num

/-- Witness for `eachEvent_trigger`: the first three timestamps of the
repository's test event list, 30 seconds apart inside one hour. -/
theorem eachEvent_trigger_witness :
    runEvents 3600000 .eachEvent [("in", avg)] (fun _ => "") ⟨[]⟩
        [⟨1445449170000, [("in", .num 2)]⟩, ⟨1445449200000, [("in", .num 4)]⟩,
         ⟨1445449230000, [("in", .num 6)]⟩]
      = (⟨[(("", 1445449170000 / 3600000),
            [⟨1445449170000, [("in", .num 2)]⟩, ⟨1445449200000, [("in", .num 4)]⟩,
             ⟨1445449230000, [("in", .num 6)]⟩])]⟩,
         [⟨1445449170000 / 3600000, [("in", .num 2)]⟩,
          ⟨1445449170000 / 3600000, [("in", .num 3)]⟩,
          ⟨1445449170000 / 3600000, [("in", .num 4)]⟩]) :=
  eachEvent_trigger 1445449170000 1445449200000 1445449230000
    (by decide) (by decide)

/-- Claim C2: with a fixed 1h window, `emitOn("discard")` and
`aggregate({in: avg})`, two events in hour bucket `N` (`in` = 2, 4)
followed by one event in bucket `N + 1` (`in` = 10) produce exactly one
emission — the bucket-`N` aggregate with average 3 — emitted only when
the bucket-`N + 1` event arrives (the run over the first two events
emits nothing), with no emission yet for bucket `N + 1` and with bucket
`N`'s accumulation entry removed from the state. -/
theorem discard_trigger (t1 t2 t3 N : Nat)
    (h1 : t1 / 3600000 = N) (h2 : t2 / 3600000 = N)
    (h3 : t3 / 3600000 = N + 1) :
    runEvents 3600000 .discard [("in", avg)] (fun _ => "") ⟨[]⟩
        [⟨t1, [("in", .num 2)]⟩, ⟨t2, [("in", .num 4)]⟩]
      = (⟨[(("", N), [⟨t1, [("in", .num 2)]⟩, ⟨t2, [("in", .num 4)]⟩])]⟩, []) ∧
    runEvents 3600000 .discard [("in", avg)] (fun _ => "") ⟨[]⟩
        [⟨t1, [("in", .num 2)]⟩, ⟨t2, [("in", .num 4)]⟩,
         ⟨t3, [("in", .num 10)]⟩]
      = (⟨[(("", N + 1), [⟨t3, [("in", .num 10)]⟩])]⟩,
         [⟨N, [("in", .num 3)]⟩]) := by
  constructor
  · simp [runEvents, stepEvent, h1, h2, lookupEntry, upsert, aggResult,
      fieldValues, alookup, numOf, avg]
  · simp [runEvents, stepEvent, h1, h2, h3, lookupEntry, upsert, aggResult,
      fieldValues, alookup, numOf, avg]
    norm_num

/-- Witness for `discard_trigger`: concrete timestamps in consecutive
hour buckets. -/
theorem discard_trigger_witness :
    runEvents 3600000 .discard [("in", avg)] (fun _ => "") ⟨[]⟩
        [⟨1445449170000, [("in", .num 2)]⟩, ⟨1445449200000, [("in", .num 4)]⟩]
      = (⟨[(("", 401513),
            [⟨1445449170000, [("in", .num 2)]⟩,
             ⟨1445449200000, [("in", .num 4)]⟩])]⟩, []) ∧
    runEvents 3600000 .discard [("in", avg)] (fun _ => "") ⟨[]⟩
        [⟨1445449170000, [("in", .num 2)]⟩, ⟨1445449200000, [("in", .num 4)]⟩,
         ⟨1445450500000, [("in", .num 10)]⟩]
      = (⟨[(("", 401514), [⟨1445450500000, [("in", .num 10)]⟩])]⟩,
         [⟨401513, [("in", .num 3)]⟩]) :=
  discard_trigger 1445449170000 1445449200000 1445450500000 401513
    (by decide) (by decide) (by decide)

/-- Claim C8: calling `aggregate(fields)` on a Pipeline with no
previously configured `windowBy` always fails with
`AggregateWithoutWindow`, for every field specification. -/
theorem aggregate_without_window (fields : List (String × AggFun))
    (p : Pipeline) (h : p.windowSpec = none) :
    p.aggregate fields = .error .aggregateWithoutWindow := by
  rw [Pipeline.aggregate, h]

/-- Witness for `aggregate_without_window`: the fresh Pipeline with the
`{in: avg}` field specification. -/
theorem aggregate_without_window_witness :
    Pipeline.empty.aggregate [("in", avg)]
      = .error .aggregateWithoutWindow :=
  aggregate_without_window [("in", avg)] Pipeline.empty rfl

set_option maxRecDepth 4000 in
/-- Counterexample to claim C9 as stated: serializing the repository's
sample range event with its data fields in the insertion order of the
construction does not produce the output string the repository's own
test asserts — the data-field order of the serialized form is not the
insertion order. -/
theorem serialize_insertion_order_counterexample :
    TimeRangeEvent.serialize ⟨1429673400000, 1429707600000, outageInsertionData⟩
      ≠ expectedOutageString := by
  decide

set_option maxRecDepth 4000 in
/-- Claim C9 (amended): serializing a `TimeRangeEvent` produces exactly
the form with a `timerange` millisecond pair followed by the `data`
object whose fields appear in the data mapping's iteration order — not
re-sorted, but also not the insertion order of the construction; with
the iteration order the repository test exhibits, the output is exactly
the test's expected string. -/
theorem serialize_timerangeevent_spec :
    TimeRangeEvent.serialize ⟨1429673400000, 1429707600000, outageMapOrderData⟩
      = expectedOutageString ∧
    ∀ t : TimeRangeEvent, (TimeRangeEvent.serialize t).data
      = lbrace :: ("\"timerange\":[".data ++ repNat t.b ++ ',' :: repNat t.e
          ++ "],\"data\":".data ++ serializeJValue (.obj t.data) ++ [rbrace]) :=
  ⟨by decide, fun t => rfl⟩

/-- Claim C4: index serialization is the exact inverse of index
parsing — parsing the serialization of any duration/bucket index yields
it back (hence the same time range), and serializing the parse of any
well-formed index string yields the string again. -/
theorem index_roundtrip :
    (∀ i : IndexSpec, parseIndex (serializeIndex i) = some i ∧
        (parseIndex (serializeIndex i)).map rangeOf = some (rangeOf i)) ∧
    (∀ s : String, WellFormedIndex s →
        ∃ i, parseIndex s = some i ∧ serializeIndex i = s) := by
  constructor
  · intro i
    rw [parseIndex_serializeIndex i]
    exact ⟨rfl, rfl⟩
  · rintro s ⟨i, rfl⟩
    exact ⟨i, parseIndex_serializeIndex i, rfl⟩

/-- Witness for `index_roundtrip`: the index string `"1h-396206"` used
by the repository's indexed-event merge test. -/
theorem index_roundtrip_witness :
    ∃ i, parseIndex "1h-396206" = some i ∧ serializeIndex i = "1h-396206" :=
  index_roundtrip.2 "1h-396206" ⟨⟨1, .h, 396206⟩, by decide⟩

/-- Claim C5: every valid index string `"<duration><unit>-<bucket>"`
parses deterministically to the time range
`[bucket * durationMillis, (bucket + 1) * durationMillis)`;
`"1d-12355"` parses to `[1067472000000, 1067558400000)`, whose
endpoints are the UTC midnights of Thursday 2003-10-30 and Friday
2003-10-31; and a string without the index shape is a parse failure,
never a silently wrong range. -/
theorem index_parse_spec :
    (∀ (s : String) (i : IndexSpec), parseIndex s = some i →
        rangeOf i = ⟨i.bucket * durMillis i, (i.bucket + 1) * durMillis i⟩) ∧
    parseIndex "1d-12355" = some ⟨1, TUnit.d, 12355⟩ ∧
    rangeOf ⟨1, TUnit.d, 12355⟩ = ⟨1067472000000, 1067558400000⟩ ∧
    1067472000000 % 86400000 = 0 ∧
    civilFromDay (1067472000000 / 86400000) = (2003, 10, 30) ∧
    dayOfWeek (1067472000000 / 86400000) = 4 ∧
    1067558400000 % 86400000 = 0 ∧
    civilFromDay (1067558400000 / 86400000) = (2003, 10, 31) ∧
    dayOfWeek (1067558400000 / 86400000) = 5 ∧
    (∀ s : String, ¬ IndexShape s.data → parseIndex s = none) := by
  exact ⟨fun s i _ => rfl, by decide, by decide, by decide, by decide,
    by decide, by decide, by decide, by decide, parseIndex_invalid⟩

/-- Witness for `index_parse_spec`: the hypothesis-bearing conjuncts
applied at the test's hour index and at a shapeless string. -/
theorem index_parse_spec_witness :
    rangeOf ⟨1, TUnit.h, 396206⟩
      = ⟨(396206 : Nat) * durMillis ⟨1, TUnit.h, 396206⟩,
         ((396206 : Nat) + 1) * durMillis ⟨1, TUnit.h, 396206⟩⟩ ∧
    parseIndex "bogus" = none := by
  constructor
  · exact index_parse_spec.1 "1h-396206" ⟨1, .h, 396206⟩ (by decide)
  · refine index_parse_spec.2.2.2.2.2.2.2.2.2 "bogus" ?_
    rintro ⟨u, ds, bs, heq, _⟩
    have hm : '-' ∈ "bogus".data := by
      rw [heq]
      exact List.mem_append.mpr (Or.inr (by simp))
    revert hm
    decide

end Pond
